import Mathlib

/-!
Verification of `pkg/resourcecollector/clusterrole.go` (stork): the RBAC
subject classifier, the collection-phase subject extractor, the apply-phase
subject remapper and the cluster-role-binding merger.

The Go file operates on `rbacv1.Subject` and `rbacv1.ClusterRoleBinding`
values and on helper functions of the upstream
`k8s.io/apiserver/.../serviceaccount` package.  The upstream helpers and
constants are not part of this repository's sources; they are modelled here
from the specification's description of the naming conventions
(`system:serviceaccount:<namespace>:<account>` for users,
`system:serviceaccounts:<namespace>` for groups) and from the documented
behaviour of the generated `Subject.String()` serialization.  Everything
else is translated directly from the Go source.

Strings are reasoned about through their character lists (`String.data`);
the string helpers are defined on character lists so that every operation
is kernel-computable and inductively tractable.
-/

namespace Stork

/-- `rbacv1.ServiceAccountKind`. -/
def serviceAccountKind : String := "ServiceAccount"

/-- `rbacv1.UserKind`. -/
def userKind : String := "User"

/-- `rbacv1.GroupKind`. -/
def groupKind : String := "Group"

/-- Modelled from the spec: the fixed marker that starts a conventional
service-account *user* name, `system:serviceaccount:<namespace>:<account>`
(upstream constant `serviceaccount.ServiceAccountUsernamePrefix`, not part
of this repository's sources). -/
def serviceAccountUsernamePrefix : String := "system:serviceaccount:"

/-- Modelled from the spec: the fixed marker that starts a conventional
service-account *group* name, `system:serviceaccounts:<namespace>`
(upstream constant `serviceaccount.ServiceAccountGroupPrefix`, not part of
this repository's sources).  Note the extra `s`: it differs from
`serviceAccountUsernamePrefix`. -/
def serviceAccountGroupPrefix : String := "system:serviceaccounts:"

/-- `rbacv1.Subject`: one RBAC principal bound by a role.  `kind` is a
string compared against the three kind constants; `namespace` is meaningful
for ServiceAccount subjects only; for User and Group subjects namespace
membership is encoded inside `name`. -/
structure Subject where
  kind : String
  apiGroup : String
  name : String
  «namespace» : String
  deriving DecidableEq, Repr

/-- Split a character list at every occurrence of `c` (the splitting model
behind `strings.Split`): always returns at least one part, and exactly the
parts between consecutive separators. -/
def splitOnChar (c : Char) : List Char → List (List Char)
  | [] => [[]]
  | x :: xs =>
    match splitOnChar c xs with
    | [] => [[]]
    | h :: t => if x = c then [] :: h :: t else (x :: h) :: t

/-- The error message with which the upstream username splitter rejects a
non-conforming name. -/
def invalidUsernameMsg : String :=
  "Username must be in the form system:serviceaccount:namespace:name"

/-- Modelled from the spec: `serviceaccount.SplitUsername` (upstream, not
part of this repository's sources).  Decodes the namespace and account
embedded in a conventional user name `system:serviceaccount:<namespace>:<account>`:
the fixed marker must be present and the remainder must split on `:` into
exactly two parts; otherwise the name does not conform and the split
fails. -/
def splitUsername (username : String) : Except String (String × String) :=
  if serviceAccountUsernamePrefix.data.isPrefixOf username.data then
    match splitOnChar ':' (username.data.drop serviceAccountUsernamePrefix.data.length) with
    | [nsChars, nameChars] => .ok (String.mk nsChars, String.mk nameChars)
    | _ => .error invalidUsernameMsg
  else .error invalidUsernameMsg

/-- Modelled from the spec: `serviceaccount.MakeUsername` (upstream, not
part of this repository's sources): encode a namespace and account into the
conventional user name. -/
def makeUsername (ns name : String) : String :=
  serviceAccountUsernamePrefix ++ ns ++ ":" ++ name

/-- Modelled from the spec: `serviceaccount.MakeNamespaceGroupName`
(upstream, not part of this repository's sources): the conventional name of
the group of all service accounts of a namespace. -/
def makeNamespaceGroupName (ns : String) : String :=
  serviceAccountGroupPrefix ++ ns

/-- `strings.TrimPrefix`: remove `pfx` from the front of `s` when present,
otherwise return `s` unchanged. -/
def trimPrefix (s pfx : String) : String :=
  if pfx.data.isPrefixOf s.data then String.mk (s.data.drop pfx.data.length) else s

/-- `ResourceCollector.subjectInNamespace` (clusterrole.go lines 14-35), the
subject classifier.  Returns the `(bool, error)` pair of the Go function.
ServiceAccount: compare the namespace field.  User: decode the name with
`splitUsername`; a decode failure is a non-match, not an error.  Group: strip
`serviceAccountUsernamePrefix` from the name — exactly as the source does,
which is the *user*-name marker, not the group-name marker — and compare the
remainder.  Any other kind never matches.  Every branch returns a nil
error. -/
def subjectInNamespace (subject : Subject) (ns : String) : Bool × Option String :=
  if subject.kind = serviceAccountKind then
    (decide (subject.«namespace» = ns), none)
  else if subject.kind = userKind then
    match splitUsername subject.name with
    | .error _ => (false, none)
    | .ok (userNamespace, _) => (decide (userNamespace = ns), none)
  else if subject.kind = groupKind then
    (decide (trimPrefix subject.name serviceAccountUsernamePrefix = ns), none)
  else (false, none)

/-- The boolean component of the classifier. -/
def subjectMatches (s : Subject) (ns : String) : Bool :=
  (subjectInNamespace s ns).1

/-- Modelled from the spec (section 4.1), for comparison with the source's
classifier: the Group case of `belongsToNamespace` as the spec states it —
strip the *group*-name marker `system:serviceaccounts:` and compare what
remains to the namespace. -/
def belongsToNamespaceSpecGroup (subject : Subject) (ns : String) : Bool :=
  decide (trimPrefix subject.name serviceAccountGroupPrefix = ns)

/-- The subject-loop body of
`ResourceCollector.prepareClusterRoleBindingForCollection` (clusterrole.go
lines 94-107): for every subject, for every requested namespace, classify
and append the unmodified subject on a match; a classifier error aborts the
whole extraction.  The accumulated list is the binding's new subject
list. -/
def extractSubjects (subs : List Subject) (nss : List String) : Except String (List Subject) :=
  subs.foldlM (fun acc s =>
    nss.foldlM (fun acc2 ns =>
      match subjectInNamespace s ns with
      | (_, some e) => Except.error e
      | (collect, none) => Except.ok (if collect then acc2 ++ [s] else acc2)) acc) []

/-- The pure value `extractSubjects` always computes (the classifier never
returns an error): each subject repeated once per requested namespace it
matches, in source order. -/
def extractPure (subs : List Subject) (nss : List String) : List Subject :=
  subs.flatMap (fun s => (nss.filter (fun ns => subjectMatches s ns)).map (fun _ => s))

/-- The kind-switch of `ResourceCollector.prepareClusterRoleBindingForApply`
(clusterrole.go lines 138-149), applied to a subject already classified as
belonging to the source namespace: User names are re-encoded for the
destination namespace keeping the account part, Group names are replaced by
the destination namespace's conventional group name, ServiceAccount
subjects get the destination namespace; a kind outside the switch is
appended unchanged.  A User name that fails to decode is a hard error. -/
def rewriteSubject (destNs : String) (s : Subject) : Except String Subject :=
  if s.kind = userKind then
    match splitUsername s.name with
    | .error e => Except.error e
    | .ok (_, username) => Except.ok { s with name := makeUsername destNs username }
  else if s.kind = groupKind then
    Except.ok { s with name := makeNamespaceGroupName destNs }
  else if s.kind = serviceAccountKind then
    Except.ok { s with «namespace» := destNs }
  else Except.ok s

/-- The mapping-and-subject loop of
`ResourceCollector.prepareClusterRoleBindingForApply` (clusterrole.go lines
126-152): for each `(source, destination)` pair of the namespace mapping (in
the order the mapping is enumerated), for each subject of the binding,
classify against the source namespace; on a non-match skip the subject, on a
match rewrite it for the destination namespace and append it.  Classifier
and rewrite errors abort the whole operation. -/
def remapSubjects (subs : List Subject) (mappings : List (String × String)) :
    Except String (List Subject) :=
  mappings.foldlM (fun acc p =>
    subs.foldlM (fun acc2 s =>
      match subjectInNamespace s p.1 with
      | (_, some e) => Except.error e
      | (false, none) => Except.ok acc2
      | (true, none) =>
        match rewriteSubject p.2 s with
        | Except.error e => Except.error e
        | Except.ok s2 => Except.ok (acc2 ++ [s2])) acc) []

/-- The pure value `remapSubjects` always computes: for each mapping entry
in enumeration order, the rewritten forms of the subjects the classifier
matches against the entry's source namespace. -/
def remapPure (subs : List Subject) (mappings : List (String × String)) : List Subject :=
  mappings.flatMap (fun p => subs.filterMap (fun s =>
    if subjectMatches s p.1 then (rewriteSubject p.2 s).toOption else none))

/-- Modelled from the spec: the canonical identity string the merger keys
its de-duplication map on — the Go code calls the generated
`rbacv1.Subject.String()` (upstream, not part of this repository's
sources), which concatenates the field labels and the raw field values of
the whole struct.  Because the values are inserted verbatim, the
serialization is not injective: distinct subjects can share a key. -/
def Subject.goString (s : Subject) : String :=
  "&Subject\x7bKind:" ++ s.kind ++ ",APIGroup:" ++ s.apiGroup ++
    ",Name:" ++ s.name ++ ",Namespace:" ++ s.«namespace» ++ ",\x7d"

/-- One step of filling the Go de-duplication map
`map[string]rbacv1.Subject`: bind key `k` to `v`, replacing the value of an
existing binding of `k` in place and appending a fresh binding at the
end. -/
def upsert (k : String) (v : Subject) : List (String × Subject) → List (String × Subject)
  | [] => [(k, v)]
  | (k', v') :: rest => if k' = k then (k, v) :: rest else (k', v') :: upsert k v rest

/-- Fill the de-duplication map with every subject of `l`, keyed by its
`goString`, in list order (a later subject with the same key wins). -/
def insertAll (m : List (String × Subject)) (l : List Subject) : List (String × Subject) :=
  l.foldl (fun m s => upsert s.goString s m) m

/-- Look a key up in the de-duplication map. -/
def lookupKey (k : String) : List (String × Subject) → Option Subject
  | [] => none
  | (k', v) :: rest => if k' = k then some v else lookupKey k rest

/-- The de-duplicated union of the merger (clusterrole.go lines 179-190):
seed the map from the current destination binding's subjects, overwrite and
extend with the new binding's subjects, and take the map's values as the
binding's new subject list.  (The Go `range` over the map enumerates the
values in an unspecified order; this model fixes insertion order, and the
properties proved about the result are order-insensitive ones.) -/
def mergedSubjects (cur new : List Subject) : List Subject :=
  (insertAll (insertAll [] cur) new).map Prod.snd

/-- The last subject of `l` whose `goString` is `k` — the value the
de-duplication map ends up holding at key `k` after inserting all of
`l`. -/
def lastKeyed (l : List Subject) (k : String) : Option Subject :=
  match l with
  | [] => none
  | s :: rest =>
    match lastKeyed rest k with
    | some v => some v
    | none => if s.goString = k then some s else none

/-- Every binding of the de-duplication map keys a subject by its own
serialization. -/
def KeyedByGoString (m : List (String × Subject)) : Prop :=
  ∀ p ∈ m, p.1 = Subject.goString p.2

/-- `rbacv1.RoleRef`: the cluster role a binding grants. -/
structure RoleRef where
  apiGroup : String
  kind : String
  name : String
  deriving DecidableEq, Repr

/-- `rbacv1.ClusterRoleBinding`, as the merger uses it: its name (the
cluster-wide identifier it is fetched and written under), its role
reference, its subject list, and — abstracted into the type parameter `M` —
every remaining field (the object metadata), which the merger never
inspects. -/
structure ClusterRoleBinding (M : Type) where
  name : String
  meta : M
  roleRef : RoleRef
  subjects : List Subject
  deriving DecidableEq, Repr

/-- The error of a cluster-API call: the distinguishable not-found
condition (`apierrors.IsNotFound`), or any other transport/API error. -/
inductive ApiErr where
  | notFound : ApiErr
  | transport : String → ApiErr
  deriving DecidableEq, Repr

/-- The external cluster-API collaborator as the merger sees it during one
invocation: what `GetClusterRoleBinding` returns for a name, and what error
(if any) `CreateClusterRoleBinding` / `UpdateClusterRoleBinding` return for
a binding. -/
structure ClusterAPI (M : Type) where
  get : String → Except ApiErr (ClusterRoleBinding M)
  createResult : ClusterRoleBinding M → Option ApiErr
  updateResult : ClusterRoleBinding M → Option ApiErr

/-- A write the merger issues against the destination cluster. -/
inductive WriteCall (M : Type) where
  | create : ClusterRoleBinding M → WriteCall M
  | update : ClusterRoleBinding M → WriteCall M
  deriving DecidableEq, Repr

/-- `ResourceCollector.mergeAndUpdateClusterRoleBinding` (clusterrole.go
lines 163-194): read the current binding under the new binding's name.  On
a not-found error create the new binding as given and return the create
call's error; on any other read error return it with no write.  When the
read succeeds, replace the current binding's subject list with the
de-duplicated union and issue one update.  Returns the writes issued and
the error returned. -/
def mergeAndUpdateClusterRoleBinding {M : Type} (api : ClusterAPI M)
    (newCRB : ClusterRoleBinding M) : List (WriteCall M) × Option ApiErr :=
  match api.get newCRB.name with
  | Except.error e =>
    if e = ApiErr.notFound then ([WriteCall.create newCRB], api.createResult newCRB)
    else ([], some e)
  | Except.ok currentCRB =>
    let updated := { currentCRB with subjects := mergedSubjects currentCRB.subjects newCRB.subjects }
    ([WriteCall.update updated], api.updateResult updated)

/-- A destination cluster holding at most the one binding the merger works
on, with reads and writes succeeding: `get` answers not-found when the
store is empty and the stored binding otherwise. -/
def storeAPI {M : Type} (store : Option (ClusterRoleBinding M)) : ClusterAPI M where
  get := fun _ => match store with
    | none => Except.error ApiErr.notFound
    | some b => Except.ok b
  createResult := fun _ => none
  updateResult := fun _ => none

/-- Replay the merger's writes against the store: a create or an update
leaves the written binding as the stored one. -/
def applyWrites {M : Type} (store : Option (ClusterRoleBinding M)) :
    List (WriteCall M) → Option (ClusterRoleBinding M)
  | [] => store
  | WriteCall.create b :: rest => applyWrites (some b) rest
  | WriteCall.update b :: rest => applyWrites (some b) rest

/-- One merger invocation against a destination store on which every API
call succeeds: the store after the merger's writes. -/
def runMergeOnce {M : Type} (store : Option (ClusterRoleBinding M))
    (newCRB : ClusterRoleBinding M) : Option (ClusterRoleBinding M) :=
  applyWrites store (mergeAndUpdateClusterRoleBinding (storeAPI store) newCRB).1

/-- The destination binding's subject list in a store state (empty when no
binding is stored). -/
def storedSubjects {M : Type} : Option (ClusterRoleBinding M) → List Subject
  | none => []
  | some b => b.subjects

/-- A concrete ServiceAccount subject used in the merge examples. -/
def subjX : Subject := ⟨"ServiceAccount", "", "sa-x", "ns-x"⟩

/-- A concrete Group subject used in the merge examples. -/
def subjZ : Subject := ⟨"Group", "rbac.authorization.k8s.io", "system:serviceaccounts:ns-z", ""⟩

/-- One of two distinct subjects sharing a serialization: the raw field
values are concatenated between fixed labels, so a `,Namespace:` sequence
inside the name field collides with the field boundary. -/
def collidingA : Subject := ⟨"User", "", "n,Namespace:m", "q"⟩

/-- The other subject of the colliding pair: same serialization as
`collidingA`, different name and namespace fields. -/
def collidingB : Subject := ⟨"User", "", "n", "m,Namespace:q"⟩

/-- A concrete binding carrying the colliding pair, for the idempotence
counterexample. -/
def collidingCRB : ClusterRoleBinding Unit :=
  ⟨"crb1", (), ⟨"rbac.authorization.k8s.io", "ClusterRole", "role1"⟩, [collidingA, collidingB]⟩

/-- A concrete incoming binding for the merger examples. -/
def demoCRB : ClusterRoleBinding Unit :=
  ⟨"crb-demo", (), ⟨"rbac.authorization.k8s.io", "ClusterRole", "role-demo"⟩, [subjX]⟩

/-- A concrete destination binding stored under the same name as
`demoCRB`, with its own role reference and subjects. -/
def demoCur : ClusterRoleBinding Unit :=
  ⟨"crb-demo", (), ⟨"rbac.authorization.k8s.io", "ClusterRole", "role-cur"⟩, [subjZ]⟩

/-- An incoming binding that agrees with `demoCRB` on name and subjects but
differs in its role reference — material the merger must ignore. -/
def demoOther : ClusterRoleBinding Unit :=
  ⟨"crb-demo", (), ⟨"other-group", "ClusterRole", "role-other"⟩, [subjX]⟩

/-! ### Lemmas about the classifier and the name encodings -/

/-- The classifier never returns an error: every branch of
`subjectInNamespace` carries a nil error. -/
theorem subjectInNamespace_err (s : Subject) (ns : String) :
    (subjectInNamespace s ns).2 = none := by
  unfold subjectInNamespace
  split
  · rfl
  split
  · split <;> rfl
  split
  · rfl
  · rfl

/-- The classifier's result is its boolean paired with a nil error. -/
theorem subjectInNamespace_eq (s : Subject) (ns : String) :
    subjectInNamespace s ns = (subjectMatches s ns, none) := by
  have h := subjectInNamespace_err s ns
  cases hval : subjectInNamespace s ns with
  | mk b e =>
    simp only [subjectMatches, hval] at h ⊢
    simp [h]

/-- The one-step unfolding of `splitOnChar` on a non-empty list. -/
theorem splitOnChar_cons (c x : Char) (xs : List Char) :
    splitOnChar c (x :: xs) = match splitOnChar c xs with
      | [] => [[]]
      | h :: t => if x = c then [] :: h :: t else (x :: h) :: t := rfl

/-- `splitOnChar` always produces at least one part. -/
theorem splitOnChar_ne_nil (c : Char) (l : List Char) : splitOnChar c l ≠ [] := by
  induction l with
  | nil => simp [splitOnChar]
  | cons x xs ih =>
    rw [splitOnChar_cons]
    rcases hs : splitOnChar c xs with _ | ⟨a, t⟩
    · exact absurd hs ih
    · by_cases hxc : x = c <;> simp [hxc]

/-- A list without the separator splits into itself alone. -/
theorem splitOnChar_of_not_mem (c : Char) (l : List Char) (h : c ∉ l) :
    splitOnChar c l = [l] := by
  induction l with
  | nil => rfl
  | cons x xs ih =>
    have hx : x ≠ c := fun hxc => h (hxc ▸ List.mem_cons_self x xs)
    have hxs : c ∉ xs := fun hc => h (List.mem_cons_of_mem x hc)
    rw [splitOnChar_cons, ih hxs]
    simp [hx]

/-- Splitting at the first separator: a separator-free part followed by the
separator splits into that part and the split of the rest. -/
theorem splitOnChar_append (c : Char) (l1 l2 : List Char) (h : c ∉ l1) :
    splitOnChar c (l1 ++ c :: l2) = l1 :: splitOnChar c l2 := by
  induction l1 with
  | nil =>
    show splitOnChar c (c :: l2) = [] :: splitOnChar c l2
    rw [splitOnChar_cons]
    rcases hs : splitOnChar c l2 with _ | ⟨a, t⟩
    · exact absurd hs (splitOnChar_ne_nil c l2)
    · simp
  | cons x xs ih =>
    have hx : x ≠ c := fun hxc => h (hxc ▸ List.mem_cons_self x xs)
    have hxs : c ∉ xs := fun hc => h (List.mem_cons_of_mem x hc)
    show splitOnChar c (x :: (xs ++ c :: l2)) = (x :: xs) :: splitOnChar c l2
    rw [splitOnChar_cons, ih hxs]
    simp [hx]

/-- Decoding inverts encoding: a user name built by `makeUsername` from a
colon-free namespace and account splits back into exactly that pair. -/
theorem splitUsername_makeUsername (ns acct : String)
    (hns : ':' ∉ ns.data) (hacct : ':' ∉ acct.data) :
    splitUsername (makeUsername ns acct) = Except.ok (ns, acct) := by
  have hdata : (makeUsername ns acct).data =
      serviceAccountUsernamePrefix.data ++ (ns.data ++ ':' :: acct.data) := by
    show (serviceAccountUsernamePrefix ++ ns ++ ":" ++ acct).data = _
    rw [String.data_append, String.data_append, String.data_append]
    simp
  unfold splitUsername
  rw [hdata]
  rw [show (serviceAccountUsernamePrefix.data.isPrefixOf
        (serviceAccountUsernamePrefix.data ++ (ns.data ++ ':' :: acct.data))) = true by
      rw [List.isPrefixOf_iff_prefix]; exact List.prefix_append _ _]
  rw [if_pos rfl, List.drop_left, splitOnChar_append ':' ns.data acct.data hns,
    splitOnChar_of_not_mem ':' acct.data hacct]

/-- A conforming user name's split never reaches the error branch twice: if
the classifier matched a User subject, `splitUsername` on its name
succeeds. -/
theorem splitUsername_ok_of_matches (s : Subject) (ns : String)
    (hkind : s.kind = userKind) (h : subjectMatches s ns = true) :
    ∃ q, splitUsername s.name = Except.ok q := by
  unfold subjectMatches subjectInNamespace at h
  rw [hkind] at h
  rw [if_neg (by decide : ¬(userKind = serviceAccountKind)), if_pos rfl] at h
  cases hsplit : splitUsername s.name with
  | error e => rw [hsplit] at h; simp at h
  | ok q => exact ⟨q, rfl⟩

/-- Whatever its kind and destination, a subject the classifier matched can
be rewritten: the only failing branch (a non-decodable User name) is ruled
out by the classifier having decoded the same name. -/
theorem rewriteSubject_ok_of_matches (s : Subject) (srcNs destNs : String)
    (h : subjectMatches s srcNs = true) :
    ∃ s2, rewriteSubject destNs s = Except.ok s2 := by
  unfold rewriteSubject
  by_cases hk : s.kind = userKind
  · rw [if_pos hk]
    obtain ⟨q, hq⟩ := splitUsername_ok_of_matches s srcNs hk h
    rw [hq]
    exact ⟨_, rfl⟩
  · rw [if_neg hk]
    split
    · exact ⟨_, rfl⟩
    split
    · exact ⟨_, rfl⟩
    · exact ⟨_, rfl⟩

/-- C1.  `code_bug`: the claim — a Group subject named by the group-name
convention `system:serviceaccounts:<N>` belongs to namespace `N` — is what
the spec states and what the rest of the file relies on (the apply path
writes exactly such names via `makeNamespaceGroupName`), but the source's
Group branch strips the *user*-name marker `system:serviceaccount:` (no
trailing `s`), which is never a prefix of a conventional group name, so the
comparison is made against the whole untouched name and fails.  At the
failing input below the classifier answers `false` where the claim requires
`true`; stripping the group marker, as the spec prescribes, answers
`true`. -/
theorem c1_group_classifier_uses_username_marker :
    subjectMatches ⟨groupKind, "", makeNamespaceGroupName "ns1", ""⟩ "ns1" = false ∧
    trimPrefix (makeNamespaceGroupName "ns1") serviceAccountUsernamePrefix =
      makeNamespaceGroupName "ns1" ∧
    belongsToNamespaceSpecGroup ⟨groupKind, "", makeNamespaceGroupName "ns1", ""⟩ "ns1" = true :=
  ⟨by decide, by decide, by decide⟩

/-- C8.  Confirmed: a User subject whose name is the well-formed encoding
`system:serviceaccount:<N>:<acct>` (namespace and account colon-free, as
every real namespace and account name is) belongs to `N` and to no other
namespace; a name that does not decode matches no namespace; and the
classifier never returns an error. -/
theorem c8_user_classifier_encoding (ns acct apiG nsf : String)
    (hns : ':' ∉ ns.data) (hacct : ':' ∉ acct.data) :
    subjectMatches ⟨userKind, apiG, makeUsername ns acct, nsf⟩ ns = true ∧
    (∀ other, other ≠ ns →
      subjectMatches ⟨userKind, apiG, makeUsername ns acct, nsf⟩ other = false) ∧
    (∀ nm target apiG2 nsf2, (∀ q, splitUsername nm ≠ Except.ok q) →
      subjectMatches ⟨userKind, apiG2, nm, nsf2⟩ target = false) ∧
    (∀ s target, (subjectInNamespace s target).2 = none) := by
  have hsplit := splitUsername_makeUsername ns acct hns hacct
  refine ⟨?_, ?_, ?_, fun s target => subjectInNamespace_err s target⟩
  · unfold subjectMatches subjectInNamespace
    simp only [if_neg (by decide : ¬(userKind = serviceAccountKind)), if_pos rfl]
    rw [hsplit]
    simp
  · intro other hother
    unfold subjectMatches subjectInNamespace
    simp only [if_neg (by decide : ¬(userKind = serviceAccountKind)), if_pos rfl]
    rw [hsplit]
    simp [decide_eq_false (Ne.symm hother)]
  · intro nm target apiG2 nsf2 hfail
    unfold subjectMatches subjectInNamespace
    simp only [if_neg (by decide : ¬(userKind = serviceAccountKind)), if_pos rfl]
    cases hs : splitUsername nm with
    | error e => rfl
    | ok q => exact absurd hs (hfail q)

/-- C8 witness: the classifier at the concrete encoding
`system:serviceaccount:ns1:acct` answers `true` for `ns1` and `false` for
`ns2`. -/
theorem c8_user_classifier_witness :
    subjectMatches ⟨userKind, "", makeUsername "ns1" "acct", ""⟩ "ns1" = true ∧
    subjectMatches ⟨userKind, "", makeUsername "ns1" "acct", ""⟩ "ns2" = false :=
  ⟨(c8_user_classifier_encoding "ns1" "acct" "" "" (by decide) (by decide)).1,
   (c8_user_classifier_encoding "ns1" "acct" "" "" (by decide) (by decide)).2.1 "ns2" (by decide)⟩

/-! ### Lemmas about the extractor and the remapper -/

/-- The extractor's inner namespace loop appends, to whatever has been
accumulated, one copy of the subject per requested namespace it matches,
and never errors. -/
theorem extract_inner (s : Subject) (nss : List String) : ∀ acc : List Subject,
    (nss.foldlM (fun acc2 ns =>
      match subjectInNamespace s ns with
      | (_, some e) => Except.error e
      | (collect, none) => Except.ok (if collect then acc2 ++ [s] else acc2)) acc
      : Except String (List Subject))
    = Except.ok (acc ++ (nss.filter (fun ns => subjectMatches s ns)).map (fun _ => s)) := by
  induction nss with
  | nil => intro acc; rw [List.foldlM_nil]; show Except.ok acc = _; simp
  | cons ns rest ih =>
    intro acc
    rw [List.foldlM_cons, subjectInNamespace_eq s ns]
    cases hb : subjectMatches s ns with
    | false =>
      show (rest.foldlM _ acc : Except String (List Subject)) = _
      rw [ih acc]
      simp [List.filter_cons, hb]
    | true =>
      show (rest.foldlM _ (acc ++ [s]) : Except String (List Subject)) = _
      rw [ih (acc ++ [s])]
      simp [List.filter_cons, hb]

/-- `extractSubjects` is total: it returns `extractPure` and never an
error. -/
theorem extractSubjects_eq (subs : List Subject) (nss : List String) :
    extractSubjects subs nss = Except.ok (extractPure subs nss) := by
  unfold extractSubjects extractPure
  suffices h : ∀ acc : List Subject,
      (subs.foldlM (fun acc s =>
        nss.foldlM (fun acc2 ns =>
          match subjectInNamespace s ns with
          | (_, some e) => Except.error e
          | (collect, none) => Except.ok (if collect then acc2 ++ [s] else acc2)) acc) acc
        : Except String (List Subject))
      = Except.ok (acc ++ subs.flatMap
          (fun s => (nss.filter (fun ns => subjectMatches s ns)).map (fun _ => s))) by
    simpa using h []
  induction subs with
  | nil => intro acc; rw [List.foldlM_nil]; show Except.ok acc = _; simp
  | cons s rest ih =>
    intro acc
    rw [List.foldlM_cons, extract_inner s nss acc]
    show (rest.foldlM _ _ : Except String (List Subject)) = _
    rw [ih]
    simp

/-- The remapper's inner subject loop appends the rewritten forms of the
matching subjects and never errors: a subject the classifier rejects is
skipped, and a matching subject always rewrites successfully. -/
theorem remap_inner (subs : List Subject) (p : String × String) : ∀ acc : List Subject,
    (subs.foldlM (fun acc2 s =>
      match subjectInNamespace s p.1 with
      | (_, some e) => Except.error e
      | (false, none) => Except.ok acc2
      | (true, none) =>
        match rewriteSubject p.2 s with
        | Except.error e => Except.error e
        | Except.ok s2 => Except.ok (acc2 ++ [s2])) acc
      : Except String (List Subject))
    = Except.ok (acc ++ subs.filterMap (fun s =>
        if subjectMatches s p.1 then (rewriteSubject p.2 s).toOption else none)) := by
  induction subs with
  | nil => intro acc; rw [List.foldlM_nil]; show Except.ok acc = _; simp
  | cons s rest ih =>
    intro acc
    rw [List.foldlM_cons, subjectInNamespace_eq s p.1]
    cases hb : subjectMatches s p.1 with
    | false =>
      show (rest.foldlM _ acc : Except String (List Subject)) = _
      rw [ih acc]
      simp [List.filterMap_cons, hb]
    | true =>
      obtain ⟨s2, hs2⟩ := rewriteSubject_ok_of_matches s p.1 p.2 hb
      rw [hs2]
      show (rest.foldlM _ (acc ++ [s2]) : Except String (List Subject)) = _
      rw [ih (acc ++ [s2])]
      simp [List.filterMap_cons, hb, hs2, Except.toOption]

/-- `remapSubjects` is total: it returns `remapPure` and never an error. -/
theorem remapSubjects_eq (subs : List Subject) (mappings : List (String × String)) :
    remapSubjects subs mappings = Except.ok (remapPure subs mappings) := by
  unfold remapSubjects remapPure
  suffices h : ∀ acc : List Subject,
      (mappings.foldlM (fun acc p =>
        subs.foldlM (fun acc2 s =>
          match subjectInNamespace s p.1 with
          | (_, some e) => Except.error e
          | (false, none) => Except.ok acc2
          | (true, none) =>
            match rewriteSubject p.2 s with
            | Except.error e => Except.error e
            | Except.ok s2 => Except.ok (acc2 ++ [s2])) acc) acc
        : Except String (List Subject))
      = Except.ok (acc ++ mappings.flatMap (fun p => subs.filterMap (fun s =>
          if subjectMatches s p.1 then (rewriteSubject p.2 s).toOption else none))) by
    simpa using h []
  induction mappings with
  | nil => intro acc; rw [List.foldlM_nil]; show Except.ok acc = _; simp
  | cons p rest ih =>
    intro acc
    rw [List.foldlM_cons, remap_inner subs p acc]
    show (rest.foldlM _ _ : Except String (List Subject)) = _
    rw [ih]
    simp

/-- A subject is in the remapped output exactly when some mapping entry's
source namespace matches it and rewriting it for that entry's destination
namespace produces it. -/
theorem mem_remapPure (subs : List Subject) (mappings : List (String × String)) (s2 : Subject) :
    s2 ∈ remapPure subs mappings ↔
      ∃ p ∈ mappings, ∃ s ∈ subs,
        subjectMatches s p.1 = true ∧ rewriteSubject p.2 s = Except.ok s2 := by
  simp only [remapPure, List.mem_flatMap, List.mem_filterMap]
  constructor
  · rintro ⟨p, hp, s, hs, hf⟩
    by_cases hm : subjectMatches s p.1
    · rw [if_pos hm] at hf
      cases hr : rewriteSubject p.2 s with
      | error e => rw [hr] at hf; simp [Except.toOption] at hf
      | ok t =>
        rw [hr] at hf
        simp only [Except.toOption, Option.some.injEq] at hf
        exact ⟨p, hp, s, hs, hm, by rw [hr, hf]⟩
    · rw [if_neg hm] at hf; simp at hf
  · rintro ⟨p, hp, s, hs, hm, hr⟩
    refine ⟨p, hp, s, hs, ?_⟩
    rw [if_pos hm, hr]
    rfl

/-- C6.  Confirmed: the extractor appends a subject once per requested
namespace the classifier matches it against, without de-duplicating across
namespaces — each subject occurs in the output exactly (its multiplicity in
the binding) × (the number of requested namespaces it matches) times, so a
redundant namespace list yields duplicate subjects. -/
theorem c6_extract_once_per_matching_namespace (subs : List Subject) (nss : List String)
    (s : Subject) :
    extractSubjects subs nss = Except.ok (extractPure subs nss) ∧
    (extractPure subs nss).countP (fun t => t = s) =
      subs.countP (fun t => t = s) * nss.countP (fun ns => subjectMatches s ns) := by
  refine ⟨extractSubjects_eq subs nss, ?_⟩
  induction subs with
  | nil => simp [extractPure]
  | cons t rest ih =>
    have hstep : extractPure (t :: rest) nss =
        (nss.filter (fun ns => subjectMatches t ns)).map (fun _ => t) ++ extractPure rest nss := by
      simp [extractPure]
    rw [hstep, List.countP_append, ih, List.countP_cons, List.countP_map]
    by_cases hts : t = s
    · subst hts
      have h1 : ((fun x => decide (x = t)) ∘ (fun _ : String => t)) = (fun _ : String => true) := by
        funext x; simp
      rw [h1]
      have h2 : List.countP (fun _ : String => true) (nss.filter (fun ns => subjectMatches t ns)) =
          (nss.filter (fun ns => subjectMatches t ns)).length := by simp
      rw [h2, ← List.countP_eq_length_filter]
      simp only [decide_true_eq_true, if_true]
      ring
    · have h1 : ((fun x => decide (x = s)) ∘ (fun _ : String => t)) = (fun _ : String => false) := by
        funext x; simp [hts]
      rw [h1]
      simp [hts]

/-- C7.  Confirmed: the remapped output consists of exactly the rewritten
forms of the subjects matched by some mapping entry (a subject no entry
matches is dropped); a matched ServiceAccount subject is emitted with its
namespace replaced by the destination namespace and every other field
unchanged; and remapping a binding whose only subject is a ServiceAccount
in `ns-a` under the mapping `ns-a → ns-c` yields exactly that subject with
namespace `ns-c`. -/
theorem c7_remap_output_characterization (subs : List Subject)
    (mappings : List (String × String)) :
    remapSubjects subs mappings = Except.ok (remapPure subs mappings) ∧
    (∀ s2, s2 ∈ remapPure subs mappings ↔
      ∃ p ∈ mappings, ∃ s ∈ subs,
        subjectMatches s p.1 = true ∧ rewriteSubject p.2 s = Except.ok s2) ∧
    (∀ destNs apiG nm nsf, rewriteSubject destNs ⟨serviceAccountKind, apiG, nm, nsf⟩ =
      Except.ok ⟨serviceAccountKind, apiG, nm, destNs⟩) ∧
    remapSubjects [⟨serviceAccountKind, "", "sa1", "ns-a"⟩] [("ns-a", "ns-c")] =
      Except.ok [⟨serviceAccountKind, "", "sa1", "ns-c"⟩] :=
  ⟨remapSubjects_eq subs mappings,
   fun s2 => mem_remapPure subs mappings s2,
   fun destNs apiG nm nsf => rfl,
   rfl⟩

/-- C2 counterexample: a User subject whose name does not conform to the
`system:serviceaccount:<namespace>:<account>` encoding does *not* make the
remap fail — the classifier already treats the undecodable name as a
non-match, so the subject is silently skipped and the operation succeeds
with the subject dropped, where the claim requires a propagated error. -/
theorem c2_nonconforming_user_is_skipped_cex :
    splitUsername "bogus" = Except.error invalidUsernameMsg ∧
    subjectMatches ⟨userKind, "", "bogus", ""⟩ "ns-a" = false ∧
    remapSubjects [⟨userKind, "", "bogus", ""⟩] [("ns-a", "ns-c")] = Except.ok [] :=
  ⟨rfl, by decide, rfl⟩

/-- C2 as amended: the remap operation never fails — the rewrite step's
error branch is unreachable, because a User subject only reaches it after
the classifier decoded the same name successfully, and a User subject whose
name does not decode is classified as a non-match for every namespace and
is therefore dropped, not reported. -/
theorem c2_remap_never_fails (subs : List Subject) (mappings : List (String × String)) :
    remapSubjects subs mappings = Except.ok (remapPure subs mappings) ∧
    (∀ s target, s.kind = userKind → (∀ q, splitUsername s.name ≠ Except.ok q) →
      subjectMatches s target = false) := by
  refine ⟨remapSubjects_eq subs mappings, ?_⟩
  intro s target hk hfail
  unfold subjectMatches subjectInNamespace
  rw [hk]
  rw [if_neg (by decide : ¬(userKind = serviceAccountKind)), if_pos rfl]
  cases hs : splitUsername s.name with
  | error e => rfl
  | ok q => exact absurd hs (hfail q)

/-- C9 counterexample: the remapped output sequence depends on the order in
which the namespace mapping is enumerated — two enumerations of the *same*
two-entry mapping (one a permutation of the other) produce different output
sequences, so equal map inputs do not by themselves determine the output
sequence; Go enumerates a map in an unspecified, per-iteration order. -/
theorem c9_remap_order_dependent_cex :
    ([("ns-a", "ns-b"), ("ns-c", "ns-d")] : List (String × String)).Perm
      [("ns-c", "ns-d"), ("ns-a", "ns-b")] ∧
    remapSubjects [⟨serviceAccountKind, "", "sa1", "ns-a"⟩, ⟨serviceAccountKind, "", "sa2", "ns-c"⟩]
        [("ns-a", "ns-b"), ("ns-c", "ns-d")] =
      Except.ok [⟨serviceAccountKind, "", "sa1", "ns-b"⟩, ⟨serviceAccountKind, "", "sa2", "ns-d"⟩] ∧
    remapSubjects [⟨serviceAccountKind, "", "sa1", "ns-a"⟩, ⟨serviceAccountKind, "", "sa2", "ns-c"⟩]
        [("ns-c", "ns-d"), ("ns-a", "ns-b")] =
      Except.ok [⟨serviceAccountKind, "", "sa2", "ns-d"⟩, ⟨serviceAccountKind, "", "sa1", "ns-b"⟩] ∧
    ([⟨serviceAccountKind, "", "sa1", "ns-b"⟩, ⟨serviceAccountKind, "", "sa2", "ns-d"⟩] :
        List Subject) ≠ [⟨serviceAccountKind, "", "sa2", "ns-d"⟩, ⟨serviceAccountKind, "", "sa1", "ns-b"⟩] :=
  ⟨List.Perm.swap ("ns-c", "ns-d") ("ns-a", "ns-b") [], rfl, rfl, by decide⟩

/-- C9 as amended: the remapper is a deterministic function of the binding's
subjects *and the enumeration order* of the namespace mapping; enumeration
orders that are permutations of one another yield outputs that are
permutations of one another (the output is determined as a multiset by the
mapping's entries), but the output sequence is not determined by the
mapping alone. -/
theorem c9_remap_perm_of_mapping_perm (subs : List Subject)
    (m1 m2 : List (String × String)) (h : m1.Perm m2) :
    (remapPure subs m1).Perm (remapPure subs m2) ∧
    remapSubjects subs m1 = Except.ok (remapPure subs m1) :=
  ⟨List.Perm.flatMap_right _ h, remapSubjects_eq subs m1⟩

/-- C9 witness: the permutation property at the two concrete enumerations
of the two-entry mapping. -/
theorem c9_remap_perm_witness :
    (remapPure [⟨serviceAccountKind, "", "sa1", "ns-a"⟩]
      [("ns-a", "ns-b"), ("ns-c", "ns-d")]).Perm
    (remapPure [⟨serviceAccountKind, "", "sa1", "ns-a"⟩]
      [("ns-c", "ns-d"), ("ns-a", "ns-b")]) :=
  (c9_remap_perm_of_mapping_perm [⟨serviceAccountKind, "", "sa1", "ns-a"⟩]
    [("ns-a", "ns-b"), ("ns-c", "ns-d")] [("ns-c", "ns-d"), ("ns-a", "ns-b")]
    (List.Perm.swap ("ns-c", "ns-d") ("ns-a", "ns-b") [])).1

/-! ### Lemmas about the de-duplication map of the merger -/

/-- The one-step unfolding of `lookupKey` on a non-empty map. -/
theorem lookupKey_cons (k k2 : String) (v2 : Subject) (rest : List (String × Subject)) :
    lookupKey k ((k2, v2) :: rest) = if k2 = k then some v2 else lookupKey k rest := rfl

/-- The one-step unfolding of `upsert` on a non-empty map. -/
theorem upsert_cons (k k2 : String) (v v2 : Subject) (rest : List (String × Subject)) :
    upsert k v ((k2, v2) :: rest) =
      if k2 = k then (k, v) :: rest else (k2, v2) :: upsert k v rest := rfl

/-- The one-step unfolding of `lastKeyed` on a non-empty list. -/
theorem lastKeyed_cons (s : Subject) (rest : List Subject) (k : String) :
    lastKeyed (s :: rest) k = match lastKeyed rest k with
      | some v => some v
      | none => if s.goString = k then some s else none := rfl

/-- Looking up in an upserted map: the upserted key answers the new value,
every other key is unaffected. -/
theorem lookupKey_upsert (k k' : String) (v : Subject) (m : List (String × Subject)) :
    lookupKey k' (upsert k v m) = if k' = k then some v else lookupKey k' m := by
  induction m with
  | nil =>
    show lookupKey k' [(k, v)] = _
    rw [lookupKey_cons]
    by_cases h : k' = k
    · rw [if_pos h.symm, if_pos h]
    · rw [if_neg (fun he => h he.symm), if_neg h]
  | cons p rest ih =>
    obtain ⟨k2, v2⟩ := p
    rw [upsert_cons]
    by_cases h2 : k2 = k
    · subst h2
      rw [if_pos rfl, lookupKey_cons, lookupKey_cons]
      by_cases h : k' = k2
      · rw [if_pos h.symm, if_pos h]
      · rw [if_neg (fun he => h he.symm), if_neg h, if_neg (fun he => h he.symm)]
    · rw [if_neg h2, lookupKey_cons, lookupKey_cons, ih]
      by_cases h : k2 = k'
      · subst h
        rw [if_pos rfl, if_neg (fun he => h2 he), if_pos rfl]
      · rw [if_neg h, if_neg h]

/-- Upserting key `k` extends the key list by `k` when absent and leaves it
unchanged when present. -/
theorem keys_upsert (k : String) (v : Subject) (m : List (String × Subject)) :
    (upsert k v m).map Prod.fst =
      if k ∈ m.map Prod.fst then m.map Prod.fst else m.map Prod.fst ++ [k] := by
  induction m with
  | nil => simp [upsert]
  | cons p rest ih =>
    obtain ⟨k2, v2⟩ := p
    rw [upsert_cons]
    by_cases h2 : k2 = k
    · subst h2
      simp
    · have hkk2 : ¬k = k2 := fun he => h2 he.symm
      rw [if_neg h2, List.map_cons, ih, List.map_cons]
      by_cases hk : k ∈ rest.map Prod.fst
      · simp [List.mem_cons, hk, hkk2]
      · simp [List.mem_cons, hk, hkk2]

/-- Upserting preserves distinctness of the keys. -/
theorem nodup_keys_upsert (k : String) (v : Subject) (m : List (String × Subject))
    (h : (m.map Prod.fst).Nodup) : ((upsert k v m).map Prod.fst).Nodup := by
  rw [keys_upsert]
  by_cases hk : k ∈ m.map Prod.fst
  · simpa [hk] using h
  · simp only [hk, if_false]
    exact List.Nodup.append h (List.nodup_singleton k) (by simpa using hk)

/-- Upserting a subject at its own serialization preserves the keying
invariant. -/
theorem keyedByGoString_upsert (v : Subject) (m : List (String × Subject))
    (h : KeyedByGoString m) : KeyedByGoString (upsert v.goString v m) := by
  induction m with
  | nil =>
    intro p hp
    simp [upsert] at hp
    subst hp
    rfl
  | cons q rest ih =>
    obtain ⟨k2, v2⟩ := q
    by_cases h2 : k2 = v.goString
    · subst h2
      intro p hp
      simp only [upsert, if_pos rfl] at hp
      rcases List.mem_cons.mp hp with hp | hp
      · subst hp; rfl
      · exact h p (List.mem_cons_of_mem _ hp)
    · intro p hp
      simp only [upsert, if_neg h2] at hp
      rcases List.mem_cons.mp hp with hp | hp
      · subst hp; exact h (k2, v2) (List.mem_cons_self _ _)
      · exact ih (fun q hq => h q (List.mem_cons_of_mem _ hq)) p hp

/-- Filling the map with a subject list preserves distinctness of keys. -/
theorem nodup_keys_insertAll (l : List Subject) : ∀ m : List (String × Subject),
    (m.map Prod.fst).Nodup → ((insertAll m l).map Prod.fst).Nodup := by
  induction l with
  | nil => intro m h; exact h
  | cons s rest ih =>
    intro m h
    exact ih _ (nodup_keys_upsert s.goString s m h)

/-- Filling the map with a subject list preserves the keying invariant. -/
theorem keyedByGoString_insertAll (l : List Subject) : ∀ m : List (String × Subject),
    KeyedByGoString m → KeyedByGoString (insertAll m l) := by
  induction l with
  | nil => intro m h; exact h
  | cons s rest ih =>
    intro m h
    exact ih _ (keyedByGoString_upsert s m h)

/-- Looking up after filling the map: the last inserted subject with that
key wins, and keys no inserted subject carries fall through to the original
map. -/
theorem lookupKey_insertAll (l : List Subject) : ∀ (m : List (String × Subject)) (k : String),
    lookupKey k (insertAll m l) =
      match lastKeyed l k with
      | some v => some v
      | none => lookupKey k m := by
  induction l with
  | nil => intro m k; rfl
  | cons s rest ih =>
    intro m k
    show lookupKey k (insertAll (upsert s.goString s m) rest) = _
    rw [ih (upsert s.goString s m) k, lookupKey_upsert]
    show _ = (match lastKeyed (s :: rest) k with
      | some v => some v
      | none => lookupKey k m)
    rw [lastKeyed_cons]
    cases hl : lastKeyed rest k with
    | some v => rfl
    | none =>
      by_cases hk : k = s.goString
      · rw [if_pos hk, if_pos hk.symm]
      · rw [if_neg hk, if_neg (fun he => hk he.symm)]

/-- A successful lookup's binding is in the map. -/
theorem lookupKey_some_mem (k : String) (v : Subject) : ∀ m : List (String × Subject),
    lookupKey k m = some v → (k, v) ∈ m := by
  intro m
  induction m with
  | nil => intro h; simp [lookupKey] at h
  | cons p rest ih =>
    obtain ⟨k2, v2⟩ := p
    intro h
    rw [lookupKey_cons] at h
    by_cases h2 : k2 = k
    · rw [if_pos h2] at h
      injection h with hv
      subst hv
      subst h2
      exact List.mem_cons_self _ _
    · rw [if_neg h2] at h
      exact List.mem_cons_of_mem _ (ih h)

/-- In a map with distinct keys, every binding is found by its key. -/
theorem mem_lookupKey (k : String) (v : Subject) : ∀ m : List (String × Subject),
    (m.map Prod.fst).Nodup → (k, v) ∈ m → lookupKey k m = some v := by
  intro m
  induction m with
  | nil => intro _ h; simp at h
  | cons p rest ih =>
    obtain ⟨k2, v2⟩ := p
    intro hnd hm
    rw [List.map_cons] at hnd
    obtain ⟨hnotin, hrest⟩ := List.nodup_cons.mp hnd
    rcases List.mem_cons.mp hm with he | hm
    · injection he with hk hv
      subst hk
      subst hv
      rw [lookupKey_cons, if_pos rfl]
    · have hk2 : ¬k2 = k := fun he => by
        have hkmem : k ∈ rest.map Prod.fst := List.mem_map_of_mem Prod.fst hm
        exact hnotin (he ▸ hkmem)
      rw [lookupKey_cons, if_neg hk2]
      exact ih hrest hm

/-- A last-keyed hit is a member of the list carrying that key. -/
theorem lastKeyed_some (k : String) (v : Subject) : ∀ l : List Subject,
    lastKeyed l k = some v → v ∈ l ∧ v.goString = k := by
  intro l
  induction l with
  | nil => intro h; simp [lastKeyed] at h
  | cons s rest ih =>
    intro h
    rw [lastKeyed_cons] at h
    cases hl : lastKeyed rest k with
    | some w =>
      rw [hl] at h
      injection h with hw
      subst hw
      obtain ⟨hmem, hkey⟩ := ih hl
      exact ⟨List.mem_cons_of_mem _ hmem, hkey⟩
    | none =>
      rw [hl] at h
      by_cases hk : s.goString = k
      · rw [if_pos hk] at h
        injection h with hw
        subst hw
        exact ⟨List.mem_cons_self _ _, hk⟩
      · rw [if_neg hk] at h
        exact absurd h (by simp)

/-- A member of the list always has a last-keyed representative under its
own key. -/
theorem lastKeyed_of_mem (s : Subject) : ∀ l : List Subject,
    s ∈ l → ∃ v, lastKeyed l s.goString = some v := by
  intro l
  induction l with
  | nil => intro h; simp at h
  | cons t rest ih =>
    intro h
    rw [lastKeyed_cons]
    cases hl : lastKeyed rest s.goString with
    | some w => exact ⟨w, rfl⟩
    | none =>
      rcases List.mem_cons.mp h with he | hmem
      · subst he
        exact ⟨s, by rw [if_pos rfl]⟩
      · obtain ⟨v, hv⟩ := ih hmem
        rw [hv] at hl
        exact absurd hl (by simp)

/-- In a map with distinct keys all holding the keying invariant, a subject
is among the values exactly when the map holds it at its own
serialization. -/
theorem mem_values_iff (m : List (String × Subject)) (hnd : (m.map Prod.fst).Nodup)
    (hinv : KeyedByGoString m) (v : Subject) :
    v ∈ m.map Prod.snd ↔ lookupKey v.goString m = some v := by
  constructor
  · intro h
    obtain ⟨⟨k, v2⟩, hp, hv⟩ := List.mem_map.mp h
    have hv2 : v2 = v := hv
    subst hv2
    have hk : k = v2.goString := hinv (k, v2) hp
    subst hk
    exact mem_lookupKey _ _ m hnd hp
  · intro h
    exact List.mem_map.mpr ⟨(v.goString, v), lookupKey_some_mem _ _ m h, rfl⟩

/-- The value the map holds at a key, read back through the value list: the
last keyed value of the value list is the looked-up value. -/
theorem lastKeyed_values (m : List (String × Subject)) (hnd : (m.map Prod.fst).Nodup)
    (hinv : KeyedByGoString m) (k : String) :
    lastKeyed (m.map Prod.snd) k = lookupKey k m := by
  induction m with
  | nil => rfl
  | cons p rest ih =>
    obtain ⟨k2, v2⟩ := p
    rw [List.map_cons] at hnd ⊢
    obtain ⟨hnotin, hrest⟩ := List.nodup_cons.mp hnd
    have hnotin2 : k2 ∉ rest.map Prod.fst := hnotin
    have hinvrest : KeyedByGoString rest := fun q hq => hinv q (List.mem_cons_of_mem _ hq)
    have hk2 : k2 = v2.goString := hinv (k2, v2) (List.mem_cons_self _ _)
    rw [lastKeyed_cons, ih hrest hinvrest, lookupKey_cons]
    cases hl : lookupKey k rest with
    | some v =>
      have hkmem : k ∈ rest.map Prod.fst :=
        List.mem_map_of_mem Prod.fst (lookupKey_some_mem _ _ rest hl)
      rw [if_neg (fun he : k2 = k => hnotin2 (he.symm ▸ hkmem))]
    | none =>
      by_cases hkk : k2 = k
      · rw [if_pos hkk, if_pos (hk2.symm.trans hkk)]
      · rw [if_neg hkk, if_neg (fun he : v2.goString = k => hkk (hk2.trans he))]

/-- The de-duplication map built from the current and the new subjects has
distinct keys. -/
theorem mergedMap_nodup (cur new : List Subject) :
    ((insertAll (insertAll [] cur) new).map Prod.fst).Nodup :=
  nodup_keys_insertAll new _ (nodup_keys_insertAll cur [] (by simp))

/-- The de-duplication map built from the current and the new subjects keys
each subject by its own serialization. -/
theorem mergedMap_keyed (cur new : List Subject) :
    KeyedByGoString (insertAll (insertAll [] cur) new) :=
  keyedByGoString_insertAll new _
    (keyedByGoString_insertAll cur [] (fun p hp => absurd hp (List.not_mem_nil p)))

/-- Membership in the merged subject list: a subject is kept exactly when
it is the last new subject with its key (an incoming subject wins every key
collision), or no new subject carries its key and it is the last current
subject with its key (an uncontested current subject is retained). -/
theorem mem_mergedSubjects (cur new : List Subject) (x : Subject) :
    x ∈ mergedSubjects cur new ↔
      (lastKeyed new x.goString = some x ∨
        (lastKeyed new x.goString = none ∧ lastKeyed cur x.goString = some x)) := by
  unfold mergedSubjects
  rw [mem_values_iff _ (mergedMap_nodup cur new) (mergedMap_keyed cur new),
    lookupKey_insertAll, lookupKey_insertAll]
  cases h1 : lastKeyed new x.goString with
  | some v => simp
  | none =>
    cases h2 : lastKeyed cur x.goString with
    | some v => simp
    | none => simp [lookupKey]

/-- The last keyed subject of a merged list: the new subjects' last carrier
of the key when there is one, otherwise the current subjects'. -/
theorem lastKeyed_mergedSubjects (cur new : List Subject) (k : String) :
    lastKeyed (mergedSubjects cur new) k =
      match lastKeyed new k with
      | some v => some v
      | none => lastKeyed cur k := by
  unfold mergedSubjects
  rw [lastKeyed_values _ (mergedMap_nodup cur new) (mergedMap_keyed cur new),
    lookupKey_insertAll, lookupKey_insertAll]
  cases h1 : lastKeyed new k with
  | some v => rfl
  | none =>
    cases h2 : lastKeyed cur k with
    | some v => rfl
    | none => rfl

/-- C3.  Confirmed: the merged subject list is the key-wise union in which
an incoming subject wins on key collision and a current subject with no
colliding incoming subject is retained; in particular, merging a
destination `{X, Y}` with an incoming `{Y2, Z}` where `Y2` collides with
`Y` in canonical identity but is a different subject yields exactly the set
`{X, Y2, Z}`, with `Y` replaced and not duplicated. -/
theorem c3_merge_union_last_wins (cur new : List Subject) (X Y Y2 Z : Subject)
    (hkey : Y2.goString = Y.goString) (hne : Y ≠ Y2)
    (hXY : X.goString ≠ Y.goString) (hXZ : X.goString ≠ Z.goString)
    (hYZ : Y.goString ≠ Z.goString) :
    (∀ x, x ∈ mergedSubjects cur new ↔
      (lastKeyed new x.goString = some x ∨
        (lastKeyed new x.goString = none ∧ lastKeyed cur x.goString = some x))) ∧
    (∀ s, s ∈ mergedSubjects [X, Y] [Y2, Z] ↔ (s = X ∨ s = Y2 ∨ s = Z)) ∧
    Y ∉ mergedSubjects [X, Y] [Y2, Z] := by
  have h1 : upsert Y.goString Y [(X.goString, X)] = [(X.goString, X), (Y.goString, Y)] := by
    rw [upsert_cons, if_neg hXY]
    rfl
  have h2 : upsert Y2.goString Y2 [(X.goString, X), (Y.goString, Y)] =
      [(X.goString, X), (Y2.goString, Y2)] := by
    rw [upsert_cons, if_neg (fun he => hXY (he.trans hkey)), upsert_cons, if_pos hkey.symm]
  have h3 : upsert Z.goString Z [(X.goString, X), (Y2.goString, Y2)] =
      [(X.goString, X), (Y2.goString, Y2), (Z.goString, Z)] := by
    rw [upsert_cons, if_neg hXZ, upsert_cons,
      if_neg (fun he : Y2.goString = Z.goString => hYZ (hkey.symm.trans he))]
    rfl
  have hcomp : mergedSubjects [X, Y] [Y2, Z] = [X, Y2, Z] := by
    unfold mergedSubjects insertAll
    simp only [List.foldl_cons, List.foldl_nil]
    rw [show upsert X.goString X [] = [(X.goString, X)] from rfl, h1, h2, h3]
    rfl
  refine ⟨fun x => mem_mergedSubjects cur new x, fun s => ?_, ?_⟩
  · rw [hcomp]
    simp
  · rw [hcomp]
    intro hmem
    rcases List.mem_cons.mp hmem with he | hmem2
    · exact hXY (congrArg Subject.goString he).symm
    rcases List.mem_cons.mp hmem2 with he | hmem3
    · exact hne he
    have he : Y = Z := List.mem_singleton.mp hmem3
    exact hYZ (congrArg Subject.goString he)

/-- C3 witness: the merge scenario at concrete subjects, with the colliding
pair `collidingA`/`collidingB` — distinct subjects with equal
serializations — playing `Y` and `Y2`. -/
theorem c3_merge_union_witness :
    collidingB.goString = collidingA.goString ∧ collidingA ≠ collidingB ∧
    (∀ s, s ∈ mergedSubjects [subjX, collidingA] [collidingB, subjZ] ↔
      (s = subjX ∨ s = collidingB ∨ s = subjZ)) ∧
    collidingA ∉ mergedSubjects [subjX, collidingA] [collidingB, subjZ] :=
  ⟨by decide, by decide,
   (c3_merge_union_last_wins [] [] subjX collidingA collidingB subjZ
     (by decide) (by decide) (by decide) (by decide) (by decide)).2.1,
   (c3_merge_union_last_wins [] [] subjX collidingA collidingB subjZ
     (by decide) (by decide) (by decide) (by decide) (by decide)).2.2⟩

/-- C4 counterexample: the merge is not idempotent on every input.  The
create path (destination absent) writes the incoming binding verbatim with
no de-duplication, so an incoming binding carrying two *distinct* subjects
with the same serialization key keeps both after the first merge, while the
second merge's de-duplication map collapses them — the stored subject set
shrinks, so the set after the second call differs from the set after the
first. -/
theorem c4_merge_not_idempotent_cex :
    collidingA ≠ collidingB ∧
    collidingA.goString = collidingB.goString ∧
    collidingA ∈ storedSubjects (runMergeOnce none collidingCRB) ∧
    collidingA ∉ storedSubjects (runMergeOnce (runMergeOnce none collidingCRB) collidingCRB) := by
  refine ⟨by decide, by decide, by decide, by decide⟩

/-- C4 as amended: the merge is idempotent on the destination subject set
provided no two distinct subjects of the incoming binding share a
serialization key (true of every well-formed subject list; the
counterexample needs a field-boundary collision inside a name): for every
destination state, running the same merge twice leaves the stored subject
set exactly as it was after the first run. -/
theorem c4_merge_idempotent_of_injective_keys {M : Type}
    (store : Option (ClusterRoleBinding M)) (newCRB : ClusterRoleBinding M)
    (hinj : ∀ s ∈ newCRB.subjects, ∀ t ∈ newCRB.subjects, s.goString = t.goString → s = t) :
    ∀ x, x ∈ storedSubjects (runMergeOnce (runMergeOnce store newCRB) newCRB) ↔
      x ∈ storedSubjects (runMergeOnce store newCRB) := by
  intro x
  cases store with
  | none =>
    have h1 : runMergeOnce (none : Option (ClusterRoleBinding M)) newCRB = some newCRB := rfl
    rw [h1]
    show x ∈ mergedSubjects newCRB.subjects newCRB.subjects ↔ x ∈ newCRB.subjects
    rw [mem_mergedSubjects]
    constructor
    · rintro (h | ⟨h1, h2⟩)
      · exact (lastKeyed_some _ _ _ h).1
      · rw [h1] at h2
        exact absurd h2 (by simp)
    · intro hmem
      obtain ⟨v, hv⟩ := lastKeyed_of_mem x _ hmem
      obtain ⟨hvmem, hvkey⟩ := lastKeyed_some _ _ _ hv
      have : v = x := hinj v hvmem x hmem hvkey
      subst this
      exact Or.inl hv
  | some cur =>
    show x ∈ mergedSubjects (mergedSubjects cur.subjects newCRB.subjects) newCRB.subjects ↔
      x ∈ mergedSubjects cur.subjects newCRB.subjects
    rw [mem_mergedSubjects, mem_mergedSubjects, lastKeyed_mergedSubjects]
    cases h1 : lastKeyed newCRB.subjects x.goString with
    | some v => simp
    | none => simp

/-- C4 witness: idempotence at a concrete store-absent state and a
well-keyed incoming binding. -/
theorem c4_merge_idempotent_witness :
    subjX ∈ storedSubjects (runMergeOnce (runMergeOnce none demoCRB) demoCRB) ↔
      subjX ∈ storedSubjects (runMergeOnce none demoCRB) :=
  c4_merge_idempotent_of_injective_keys none demoCRB (by decide) subjX

/-- C5.  Confirmed: when the read answers the distinguishable not-found
condition the merger issues exactly one create with the incoming binding
unmodified and returns the create call's error; any other read error is
returned with no write at all; a successful read leads to exactly one
update whose error is returned; in every case at most one write is issued —
no retry, no second attempt. -/
theorem c5_merge_create_and_error_propagation {M : Type} (api : ClusterAPI M)
    (newCRB : ClusterRoleBinding M) :
    (api.get newCRB.name = Except.error ApiErr.notFound →
      mergeAndUpdateClusterRoleBinding api newCRB =
        ([WriteCall.create newCRB], api.createResult newCRB)) ∧
    (∀ msg, api.get newCRB.name = Except.error (ApiErr.transport msg) →
      mergeAndUpdateClusterRoleBinding api newCRB = ([], some (ApiErr.transport msg))) ∧
    (∀ cur, api.get newCRB.name = Except.ok cur → ∃ u,
      mergeAndUpdateClusterRoleBinding api newCRB = ([WriteCall.update u], api.updateResult u)) ∧
    (mergeAndUpdateClusterRoleBinding api newCRB).1.length ≤ 1 := by
  refine ⟨?_, ?_, ?_, ?_⟩
  · intro h
    unfold mergeAndUpdateClusterRoleBinding
    rw [h]
    simp
  · intro msg h
    unfold mergeAndUpdateClusterRoleBinding
    rw [h]
    simp
  · intro cur h
    exact ⟨{ cur with subjects := mergedSubjects cur.subjects newCRB.subjects },
      by unfold mergeAndUpdateClusterRoleBinding; rw [h]⟩
  · unfold mergeAndUpdateClusterRoleBinding
    cases h : api.get newCRB.name with
    | error e =>
      by_cases he : e = ApiErr.notFound
      · simp [he]
      · simp [he]
    | ok cur => simp

/-- C5 witness: against an empty destination store the merger issues the
single create call with the incoming binding unmodified and succeeds. -/
theorem c5_merge_create_witness :
    mergeAndUpdateClusterRoleBinding (storeAPI (none : Option (ClusterRoleBinding Unit))) demoCRB =
      ([WriteCall.create demoCRB], none) :=
  (c5_merge_create_and_error_propagation (storeAPI none) demoCRB).1 rfl

/-- C10.  Confirmed: on the update path the written binding is the
destination's current binding with only its subject list replaced — its
metadata, role reference and name are carried over unchanged — and the
incoming binding contributes nothing but its subjects (and the name used
for the read): two incoming bindings agreeing on name and subjects produce
identical merger behaviour whatever their other fields. -/
theorem c10_merge_update_frame {M : Type} (api : ClusterAPI M)
    (newCRB cur : ClusterRoleBinding M) (h : api.get newCRB.name = Except.ok cur) :
    (∃ u, mergeAndUpdateClusterRoleBinding api newCRB =
        ([WriteCall.update u], api.updateResult u) ∧
      u.meta = cur.meta ∧ u.roleRef = cur.roleRef ∧ u.name = cur.name ∧
      u.subjects = mergedSubjects cur.subjects newCRB.subjects) ∧
    (∀ other : ClusterRoleBinding M, other.name = newCRB.name →
      other.subjects = newCRB.subjects →
      mergeAndUpdateClusterRoleBinding api other = mergeAndUpdateClusterRoleBinding api newCRB) := by
  constructor
  · exact Exists.intro { cur with subjects := mergedSubjects cur.subjects newCRB.subjects }
      ⟨by unfold mergeAndUpdateClusterRoleBinding; rw [h], rfl, rfl, rfl, rfl⟩
  · intro other h1 h2
    unfold mergeAndUpdateClusterRoleBinding
    rw [h1, h2, h]

/-- C10 witness: an incoming binding differing from `demoCRB` only in its
role reference drives the merger to the same result. -/
theorem c10_merge_update_frame_witness :
    mergeAndUpdateClusterRoleBinding (storeAPI (some demoCur)) demoOther =
      mergeAndUpdateClusterRoleBinding (storeAPI (some demoCur)) demoCRB :=
  (c10_merge_update_frame (storeAPI (some demoCur)) demoCRB demoCur rfl).2 demoOther rfl rfl

end Stork
